import Mathlib

/-!
Verification of the property-extraction module `psets.py` of the ifc-python
repository.

The module walks an in-memory IFC building model: for a given element it
follows its definition relationships (IsDefinedBy), filters the reached
property definitions by kind (property set / element quantity / element type),
flattens each container's records into a Python dict keyed by
(container name, record name) -- or, for type definitions, by a synthesized
string key -- and merges the per-container dicts with `dict.update`
(last write wins).

The embedding below models:
  - Python dicts as insertion-ordered association lists with the
    replace-or-append update of `dict.update`;
  - the IFC record shapes the code reads (single-value properties, complex
    properties, the five quantity kinds, element types with nested property
    sets) as inductive types, with `Option` for attributes that may be the
    Python value None;
  - every function of `psets.py` as a Lean function of the same name.

A second, "raw" layer re-models the two value flatteners with fallible
attribute access (an `Except`-valued NominalValue lookup, and `is_a`-guarded
access to the five quantity scalar attributes) in order to settle the claim
that their error branches are unreachable on well-formed data.
-/

/- ### Scalar values and dictionary keys -/

/-- A scalar value as wrapped by an IFC value record (string, integer,
real, boolean). -/
inductive IfcValue where
  | str : String → IfcValue
  | int : Int → IfcValue
  | real : Rat → IfcValue
  | bool : Bool → IfcValue
deriving DecidableEq

/-- A key of the flat attribute dict: either the tuple
(container name, record name) used by the property and quantity flatteners,
or the synthesized string key used by the type flattener.  Python tuple keys
and string keys are never equal, which the two constructors model. -/
inductive AttrKey where
  | pair : String → String → AttrKey
  | typeKey : String → AttrKey
deriving DecidableEq

/-- A Python dict of flat attributes: insertion-ordered association list.
A value of `none` models the Python value None stored in the dict. -/
abbrev AttrDict := List (AttrKey × Option IfcValue)

/-- Python `d[k] = v` (the effect of `d.update({k: v})`): replace the value
at `k` in place when the key is present, otherwise append the new entry. -/
def pyUpdate1 : AttrDict → AttrKey → Option IfcValue → AttrDict
  | [], k, v => [(k, v)]
  | p :: ps, k, v => if p.1 = k then (k, v) :: ps else p :: pyUpdate1 ps k v

/-- Python `d.update(e)` for a dict argument: apply `pyUpdate1` for each
entry of `e` in insertion order. -/
def pyUpdate (d e : AttrDict) : AttrDict :=
  e.foldl (fun acc p => pyUpdate1 acc p.1 p.2) d

/-- Python `d.get(k)`: the value at the first (in a dict: only) occurrence
of key `k`, or `none` when the key is absent. -/
def dictGet : AttrDict → AttrKey → Option (Option IfcValue)
  | [], _ => none
  | p :: ps, k => if p.1 = k then some p.2 else dictGet ps k

/-- First-of-two option combinator used to state lookup lemmas. -/
def orE {α : Type} (a b : Option α) : Option α :=
  match a with
  | some v => some v
  | none => b

/-- The value of the LAST entry of an association list with key `k`
(association lists produced by repeated `pyUpdate1` never have duplicate
keys, but emission lists may; the last emission is the one a dict keeps). -/
def lastOcc : AttrDict → AttrKey → Option (Option IfcValue)
  | [], _ => none
  | p :: ps, k => orE (lastOcc ps k) (if p.1 = k then some p.2 else none)

/-- Concatenation of the images of `f`, in order (the emission lists of a
loop body over a list of records). -/
def catMap {α β : Type} (f : α → List β) : List α → List β
  | [] => []
  | y :: l => f y ++ catMap f l

/- ### The IFC data model read by psets.py -/

/-- An IfcPropertySingleValue: a name and an optional NominalValue; the
NominalValue, when present, holds the wrapped scalar (`wrappedValue`). -/
structure SingleValueData where
  name : String
  nominalValue : Option IfcValue
deriving DecidableEq

/-- A property record inside an IfcPropertySet: a single value, a complex
property (whose HasProperties are single-value records), or a record of one
of the unsupported kinds (enumerated, bounded, table, list, reference
values), which the code's `is_a` tests skip. -/
inductive IfcProperty where
  | singleValue : SingleValueData → IfcProperty
  | complexProperty : String → List SingleValueData → IfcProperty
  | otherProperty : String → IfcProperty
deriving DecidableEq

/-- An IfcPropertySet: a name and its HasProperties records. -/
structure IfcPropertySet where
  name : String
  hasProperties : List IfcProperty
deriving DecidableEq

/-- A quantity record inside an IfcElementQuantity.  Each of the five known
kinds carries its single scalar attribute (AreaValue, LengthValue,
VolumeValue, CountValue, WeightValue); the scalar attribute may hold the
Python value None.  `otherQuantity` models a record of none of the five
kinds. -/
inductive IfcQuantity where
  | area : String → Option IfcValue → IfcQuantity
  | length : String → Option IfcValue → IfcQuantity
  | volume : String → Option IfcValue → IfcQuantity
  | count : String → Option IfcValue → IfcQuantity
  | weight : String → Option IfcValue → IfcQuantity
  | otherQuantity : String → IfcQuantity
deriving DecidableEq

/-- An IfcElementQuantity: a name and its Quantities records. -/
structure IfcElementQuantity where
  name : String
  quantities : List IfcQuantity
deriving DecidableEq

/-- A property set nested under an element type's HasPropertySets; the type
flattener reads only its Name, which may be None. -/
structure TypeNestedSet where
  name : Option String
deriving DecidableEq

/-- An element type (e.g. IfcWallType): its Name may be None (reading it
then faults the type flattener), its GlobalId, and its optional
HasPropertySets collection. -/
structure IfcElementType where
  name : Option String
  globalId : String
  hasPropertySets : Option (List TypeNestedSet)
deriving DecidableEq

/-- The RelatingPropertyDefinition of a defines-by-properties relationship:
a property set, an element quantity, or some other property set definition
kind. -/
inductive IfcPropertySetDefinition where
  | propertySet : IfcPropertySet → IfcPropertySetDefinition
  | elementQuantity : IfcElementQuantity → IfcPropertySetDefinition
  | otherDefinition : String → IfcPropertySetDefinition
deriving DecidableEq

/-- A definition relationship in an element's IsDefinedBy collection:
IfcRelDefinesByProperties (carrying RelatingPropertyDefinition) or
IfcRelDefinesByType (carrying RelatingType). -/
inductive IfcRelDefines where
  | byProperties : IfcPropertySetDefinition → IfcRelDefines
  | byType : IfcElementType → IfcRelDefines
deriving DecidableEq

/-- A model element as read by psets.py: its IsDefinedBy collection, in the
model's own order. -/
structure IfcElement where
  isDefinedBy : List IfcRelDefines
deriving DecidableEq

/- ### The functions of psets.py -/

/-- `get_related_properties`: the RelatingPropertyDefinition of every
IfcRelDefinesByProperties relationship, unfiltered (list comprehension over
IsDefinedBy). -/
def get_related_properties (ifc_instance : IfcElement) : List IfcPropertySetDefinition :=
  ifc_instance.isDefinedBy.filterMap (fun x =>
    match x with
    | IfcRelDefines.byProperties d => some d
    | IfcRelDefines.byType _ => none)

/-- `get_related_type_definition`: the RelatingType of every
IfcRelDefinesByType relationship (list comprehension over IsDefinedBy). -/
def get_related_type_definition (ifc_instance : IfcElement) : List IfcElementType :=
  ifc_instance.isDefinedBy.filterMap (fun x =>
    match x with
    | IfcRelDefines.byType t => some t
    | IfcRelDefines.byProperties _ => none)

/-- `get_related_property_sets`: loop over IsDefinedBy appending every
RelatingPropertyDefinition of a defines-by-properties relationship that
`is_a` IfcPropertySet. -/
def get_related_property_sets (ifc_instance : IfcElement) : List IfcPropertySet :=
  ifc_instance.isDefinedBy.foldl (fun properties_list x =>
    match x with
    | IfcRelDefines.byProperties (IfcPropertySetDefinition.propertySet ps) =>
        properties_list ++ [ps]
    | _ => properties_list) []

/-- `get_related_quantities`: loop over IsDefinedBy appending every
RelatingPropertyDefinition of a defines-by-properties relationship that
`is_a` IfcElementQuantity. -/
def get_related_quantities (ifc_instance : IfcElement) : List IfcElementQuantity :=
  ifc_instance.isDefinedBy.foldl (fun quantities_list x =>
    match x with
    | IfcRelDefines.byProperties (IfcPropertySetDefinition.elementQuantity q) =>
        quantities_list ++ [q]
    | _ => quantities_list) []

/-- Body of the inner loop of `get_property_single_value` over the
HasProperties of a complex property (and, identically, the effect of the
single-value branch on one record): if the record's NominalValue is not
None, update the dict at key (set name, record name) with the wrapped
value. -/
def svLoop (s : String) (d : AttrDict) (z : SingleValueData) : AttrDict :=
  match z.nominalValue with
  | some v => pyUpdate1 d (AttrKey.pair s z.name) (some v)
  | none => d

/-- Body of the loop of `get_property_single_value` over HasProperties.
The two `is_a` tests of the source (IfcPropertySingleValue with non-None
NominalValue; IfcComplexProperty) are disjoint and become a match; records
of any other kind fail both tests and leave the dict unchanged. -/
def propLoop (s : String) (d : AttrDict) : IfcProperty → AttrDict
  | IfcProperty.singleValue sv => svLoop s d sv
  | IfcProperty.complexProperty _ zs => zs.foldl (svLoop s) d
  | IfcProperty.otherProperty _ => d

/-- `get_property_single_value`: flatten one IfcPropertySet into a dict, as
in the source: loop over HasProperties starting from the empty dict. -/
def get_property_single_value (x : IfcPropertySet) : AttrDict :=
  x.hasProperties.foldl (propLoop x.name) []

/-- Body of the loop of `get_quantity_single_value` over Quantities: the
five sequential `is_a` tests are disjoint and become a match; each of the
five known kinds updates the dict at key (set name, record name) with its
own scalar attribute, with no check that the scalar is not None; a record
of none of the five kinds leaves the dict unchanged. -/
def quantLoop (s : String) (d : AttrDict) : IfcQuantity → AttrDict
  | IfcQuantity.area n v => pyUpdate1 d (AttrKey.pair s n) v
  | IfcQuantity.length n v => pyUpdate1 d (AttrKey.pair s n) v
  | IfcQuantity.volume n v => pyUpdate1 d (AttrKey.pair s n) v
  | IfcQuantity.count n v => pyUpdate1 d (AttrKey.pair s n) v
  | IfcQuantity.weight n v => pyUpdate1 d (AttrKey.pair s n) v
  | IfcQuantity.otherQuantity _ => d

/-- `get_quantity_single_value`: flatten one IfcElementQuantity into a
dict: loop over Quantities starting from the empty dict. -/
def get_quantity_single_value (x : IfcElementQuantity) : AttrDict :=
  x.quantities.foldl (quantLoop x.name) []

/-- The constant string prepended to the type name in the key synthesized
by `get_type_single_value`. -/
def typeDefTag : String := "TypeDefinition_"

/-- The message printed by the `except` branch of `get_type_single_value`
(before the global id is appended). -/
def typeExcMsg : String := "Type Value Exception for IfcGlobalID "

/-- Body of the comprehension of `get_type_single_value` over
HasPropertySets, for a type whose Name is the string `nm`: if the nested
set's Name is not None, update the dict at the synthesized string key with
the nested set's name. -/
def typeSetLoop (nm : String) (d : AttrDict) (y : TypeNestedSet) : AttrDict :=
  match y.name with
  | some yn => pyUpdate1 d (AttrKey.typeKey (typeDefTag ++ nm)) (some (IfcValue.str yn))
  | none => d

/-- `get_type_single_value`, together with what it prints.  The source
guards the comprehension with `if x.HasPropertySets:` (falsy for None and
for an empty collection) and wraps it in a bare try/except that prints the
type's GlobalId.  The only fault reachable on this data is the TypeError of
`"TypeDefinition_" + x.Name` when the type's Name is None; it is raised by
the first nested set whose own Name is not None, before any dict update, so
the caught-fault result is the empty dict.  When every nested Name is None
the comprehension body never runs and no fault occurs. -/
def get_type_single_value_run (x : IfcElementType) : AttrDict × List String :=
  match x.hasPropertySets with
  | none => ([], [])
  | some [] => ([], [])
  | some (y :: ys) =>
    match x.name with
    | some nm => ((y :: ys).foldl (typeSetLoop nm) [], [])
    | none =>
      if (y :: ys).all (fun z => z.name.isNone) then ([], [])
      else ([], [typeExcMsg ++ x.globalId])

/-- The dict returned by `get_type_single_value`. -/
def get_type_single_value (x : IfcElementType) : AttrDict :=
  (get_type_single_value_run x).1

/-- The lines printed by `get_type_single_value` (its only side effect). -/
def get_type_single_value_log (x : IfcElementType) : List String :=
  (get_type_single_value_run x).2

/-- `get_all_quantity_data`: update an initially empty dict with the
flattened dict of every related quantity set, in relation order. -/
def get_all_quantity_data (ifc_instance : IfcElement) : AttrDict :=
  (get_related_quantities ifc_instance).foldl
    (fun pset_dict x => pyUpdate pset_dict (get_quantity_single_value x)) []

/-- `get_all_type_data`: update an initially empty dict with the flattened
dict of every related type definition, in relation order. -/
def get_all_type_data (ifc_instance : IfcElement) : AttrDict :=
  (get_related_type_definition ifc_instance).foldl
    (fun pset_dict x => pyUpdate pset_dict (get_type_single_value x)) []

/-- `get_all_pset_data`: update an initially empty dict with the flattened
dict of every related property set, in relation order. -/
def get_all_pset_data (ifc_instance : IfcElement) : AttrDict :=
  (get_related_property_sets ifc_instance).foldl
    (fun pset_dict x => pyUpdate pset_dict (get_property_single_value x)) []

/-- `get_all_instance_data`: one dict, updated first with the flattened
property sets, then with the flattened quantity sets, then with the
flattened type definitions. -/
def get_all_instance_data (ifc_instance : IfcElement) : AttrDict :=
  (get_related_type_definition ifc_instance).foldl
    (fun pset_dict x => pyUpdate pset_dict (get_type_single_value x))
    ((get_related_quantities ifc_instance).foldl
      (fun pset_dict x => pyUpdate pset_dict (get_quantity_single_value x))
      ((get_related_property_sets ifc_instance).foldl
        (fun pset_dict x => pyUpdate pset_dict (get_property_single_value x)) []))

/- ### Characterization helpers (used in theorem statements) -/

/-- The entries one single-value record emits: one entry when its
NominalValue is present, none otherwise. -/
def svEmit (s : String) (z : SingleValueData) : AttrDict :=
  match z.nominalValue with
  | some v => [(AttrKey.pair s z.name, some v)]
  | none => []

/-- The entries one property record emits under `propLoop`. -/
def propEmits (s : String) : IfcProperty → AttrDict
  | IfcProperty.singleValue sv => svEmit s sv
  | IfcProperty.complexProperty _ zs => catMap (svEmit s) zs
  | IfcProperty.otherProperty _ => []

/-- The record names a property record can emit under: its own name for a
single value or an unsupported record, the nested record names for a
complex property (whose own name is dropped). -/
def propNames : IfcProperty → List String
  | IfcProperty.singleValue sv => [sv.name]
  | IfcProperty.complexProperty _ zs => zs.map SingleValueData.name
  | IfcProperty.otherProperty n => [n]

/-- All record names of a property list, in order. -/
def allPropNames (l : List IfcProperty) : List String :=
  catMap propNames l

/-- The Name of a quantity record (every kind has one). -/
def IfcQuantity.qname : IfcQuantity → String
  | IfcQuantity.area n _ => n
  | IfcQuantity.length n _ => n
  | IfcQuantity.volume n _ => n
  | IfcQuantity.count n _ => n
  | IfcQuantity.weight n _ => n
  | IfcQuantity.otherQuantity n => n

/-- The scalar a quantity record emits: `some` of its matching scalar
attribute for the five known kinds (the attribute itself may be `none`,
i.e. Python None), and `none` -- no emission at all -- for a record of
none of the five kinds. -/
def IfcQuantity.quantScalar : IfcQuantity → Option (Option IfcValue)
  | IfcQuantity.area _ v => some v
  | IfcQuantity.length _ v => some v
  | IfcQuantity.volume _ v => some v
  | IfcQuantity.count _ v => some v
  | IfcQuantity.weight _ v => some v
  | IfcQuantity.otherQuantity _ => none

/-- The entries one quantity record emits under `quantLoop`. -/
def quantEmits (s : String) (y : IfcQuantity) : AttrDict :=
  match y.quantScalar with
  | some v => [(AttrKey.pair s y.qname, v)]
  | none => []

/-- The last present Name among an element type's nested property sets
(the one whose write survives, since every nested set writes the same
key). -/
def lastNamed : List TypeNestedSet → Option String
  | [] => none
  | y :: l =>
    match lastNamed l with
    | some n => some n
    | none => y.name

/-- Whether `get_type_single_value` hits its `except` branch on this input:
the type's Name is None and some nested property set has a present Name,
so the string concatenation `"TypeDefinition_" + x.Name` raises a
TypeError inside the comprehension. -/
def typeFaultTriggered (x : IfcElementType) : Bool :=
  x.name.isNone &&
    (match x.hasPropertySets with
     | some l => l.any (fun z => z.name.isSome)
     | none => false)

/- ### Raw layer: the value flatteners with fallible attribute access -/

/-- Fold a fallible loop body over a list, propagating the first raised
fault (loop-with-exceptions semantics). -/
def exceptFold {α : Type} (f : AttrDict → α → Except String AttrDict) :
    List α → AttrDict → Except String AttrDict
  | [], d => Except.ok d
  | y :: l, d =>
    match f d y with
    | Except.error e => Except.error e
    | Except.ok d₂ => exceptFold f l d₂

/-- A property record as it may really occur in a model file: besides
single values, a complex property may nest records of ANY property kind
(including further complex properties), and records of kinds that carry no
NominalValue attribute occur as well. -/
inductive RawProperty where
  | singleValue : SingleValueData → RawProperty
  | complexProperty : String → List RawProperty → RawProperty
  | otherNoValue : String → RawProperty

/-- The Name of a raw property record. -/
def RawProperty.rname : RawProperty → String
  | RawProperty.singleValue sv => sv.name
  | RawProperty.complexProperty n _ => n
  | RawProperty.otherNoValue n => n

/-- The message of the AttributeError raised by reading NominalValue on a
record kind that has no such attribute. -/
def attrErrMsg : String := "AttributeError: NominalValue missing on "

/-- Reading `z.NominalValue` on a raw record: succeeds only on a
single-value record; any other kind has no NominalValue attribute and the
access raises an AttributeError. -/
def RawProperty.nominalValueE : RawProperty → Except String (Option IfcValue)
  | RawProperty.singleValue sv => Except.ok sv.nominalValue
  | RawProperty.complexProperty n _ => Except.error (attrErrMsg ++ n)
  | RawProperty.otherNoValue n => Except.error (attrErrMsg ++ n)

/-- The unguarded inner loop body of `get_property_single_value` over a
complex property's HasProperties: `z.NominalValue` is read with NO `is_a`
test first, so the access itself may raise. -/
def rawPropInner (s : String) (d : AttrDict) (z : RawProperty) : Except String AttrDict :=
  match z.nominalValueE with
  | Except.error e => Except.error e
  | Except.ok (some v) => Except.ok (pyUpdate1 d (AttrKey.pair s z.rname) (some v))
  | Except.ok none => Except.ok d

/-- The outer loop body of `get_property_single_value` over raw records.
The single-value branch is guarded by `is_a("IfcPropertySingleValue")` and
the complex branch by `is_a("IfcComplexProperty")`, so only the inner loop
performs a fallible access. -/
def rawPropStep (s : String) (d : AttrDict) : RawProperty → Except String AttrDict
  | RawProperty.singleValue sv =>
      Except.ok (match sv.nominalValue with
        | some v => pyUpdate1 d (AttrKey.pair s sv.name) (some v)
        | none => d)
  | RawProperty.complexProperty _ zs => exceptFold (rawPropInner s) zs d
  | RawProperty.otherNoValue _ => Except.ok d

/-- An IfcPropertySet over raw records. -/
structure RawPropertySet where
  name : String
  hasProperties : List RawProperty

/-- `get_property_single_value` with Python attribute-access semantics. -/
def get_property_single_value_raw (x : RawPropertySet) : Except String AttrDict :=
  exceptFold (fun d y => rawPropStep x.name d y) x.hasProperties []

/-- Whether a raw record is a single-value record. -/
def RawProperty.isSingleB : RawProperty → Bool
  | RawProperty.singleValue _ => true
  | _ => false

/-- Well-formedness of one raw record per the data model of the
specification: a complex property nests only single-value records. -/
def RawProperty.conformsB : RawProperty → Bool
  | RawProperty.complexProperty _ zs => zs.all RawProperty.isSingleB
  | _ => true

/-- Well-formedness of a raw property set: every record conforms. -/
def RawPropertySet.conformsB (x : RawPropertySet) : Bool :=
  x.hasProperties.all RawProperty.conformsB

/-- The single-value payload of a raw record, when it is one. -/
def RawProperty.asSingle : RawProperty → Option SingleValueData
  | RawProperty.singleValue sv => some sv
  | _ => none

/-- Project a raw record onto the typed data model (faithful on
conforming records). -/
def RawProperty.toTyped : RawProperty → IfcProperty
  | RawProperty.singleValue sv => IfcProperty.singleValue sv
  | RawProperty.complexProperty n zs =>
      IfcProperty.complexProperty n (zs.filterMap RawProperty.asSingle)
  | RawProperty.otherNoValue n => IfcProperty.otherProperty n

/-- Project a raw property set onto the typed data model. -/
def RawPropertySet.toTyped (x : RawPropertySet) : IfcPropertySet :=
  ⟨x.name, x.hasProperties.map RawProperty.toTyped⟩

/-- The class tag of each of the five known quantity kinds, as tested by
the source's `is_a` calls; a record of no known kind matches no tag. -/
def IfcQuantity.isA : IfcQuantity → String → Bool
  | IfcQuantity.area _ _, t => t = "IfcQuantityArea"
  | IfcQuantity.length _ _, t => t = "IfcQuantityLength"
  | IfcQuantity.volume _ _, t => t = "IfcQuantityVolume"
  | IfcQuantity.count _ _, t => t = "IfcQuantityCount"
  | IfcQuantity.weight _ _, t => t = "IfcQuantityWeight"
  | IfcQuantity.otherQuantity _, _ => false

/-- The message of the AttributeError raised by reading a scalar attribute
on a quantity record of a kind that does not carry it. -/
def quantAttrErr : String := "AttributeError: quantity attribute missing on "

/-- Reading `y.AreaValue`: only an area record carries the attribute. -/
def IfcQuantity.areaValueE : IfcQuantity → Except String (Option IfcValue)
  | IfcQuantity.area _ v => Except.ok v
  | y => Except.error (quantAttrErr ++ y.qname)

/-- Reading `y.LengthValue`. -/
def IfcQuantity.lengthValueE : IfcQuantity → Except String (Option IfcValue)
  | IfcQuantity.length _ v => Except.ok v
  | y => Except.error (quantAttrErr ++ y.qname)

/-- Reading `y.VolumeValue`. -/
def IfcQuantity.volumeValueE : IfcQuantity → Except String (Option IfcValue)
  | IfcQuantity.volume _ v => Except.ok v
  | y => Except.error (quantAttrErr ++ y.qname)

/-- Reading `y.CountValue`. -/
def IfcQuantity.countValueE : IfcQuantity → Except String (Option IfcValue)
  | IfcQuantity.count _ v => Except.ok v
  | y => Except.error (quantAttrErr ++ y.qname)

/-- Reading `y.WeightValue`. -/
def IfcQuantity.weightValueE : IfcQuantity → Except String (Option IfcValue)
  | IfcQuantity.weight _ v => Except.ok v
  | y => Except.error (quantAttrErr ++ y.qname)

/-- One of the five sequential guarded updates of the quantity loop: when
the record matches the tag, read the corresponding scalar attribute (a
fallible access) and update the dict at (set name, record name). -/
def guardedUpdate (s : String) (y : IfcQuantity) (tag : String)
    (getter : IfcQuantity → Except String (Option IfcValue))
    (acc : Except String AttrDict) : Except String AttrDict :=
  match acc with
  | Except.error e => Except.error e
  | Except.ok d =>
    if y.isA tag then
      match getter y with
      | Except.error e => Except.error e
      | Except.ok v => Except.ok (pyUpdate1 d (AttrKey.pair s y.qname) v)
    else Except.ok d

/-- The loop body of `get_quantity_single_value` with Python semantics:
the five `is_a`-guarded updates run in source order. -/
def rawQuantStep (s : String) (d : AttrDict) (y : IfcQuantity) : Except String AttrDict :=
  guardedUpdate s y ("IfcQuantityWeight") IfcQuantity.weightValueE
    (guardedUpdate s y ("IfcQuantityCount") IfcQuantity.countValueE
      (guardedUpdate s y ("IfcQuantityVolume") IfcQuantity.volumeValueE
        (guardedUpdate s y ("IfcQuantityLength") IfcQuantity.lengthValueE
          (guardedUpdate s y ("IfcQuantityArea") IfcQuantity.areaValueE
            (Except.ok d)))))

/-- `get_quantity_single_value` with Python attribute-access semantics. -/
def get_quantity_single_value_raw (x : IfcElementQuantity) : Except String AttrDict :=
  exceptFold (fun d y => rawQuantStep x.name d y) x.quantities []

/-- A RelatingPropertyDefinition over raw property sets. -/
inductive RawPropertySetDefinition where
  | propertySet : RawPropertySet → RawPropertySetDefinition
  | elementQuantity : IfcElementQuantity → RawPropertySetDefinition
  | otherDefinition : String → RawPropertySetDefinition

/-- A definition relationship over raw property sets. -/
inductive RawRelDefines where
  | byProperties : RawPropertySetDefinition → RawRelDefines
  | byType : IfcElementType → RawRelDefines

/-- A model element over raw property sets. -/
structure RawElement where
  isDefinedBy : List RawRelDefines

/-- `get_related_property_sets` over a raw element. -/
def get_related_property_sets_raw (e : RawElement) : List RawPropertySet :=
  e.isDefinedBy.foldl (fun properties_list x =>
    match x with
    | RawRelDefines.byProperties (RawPropertySetDefinition.propertySet ps) =>
        properties_list ++ [ps]
    | _ => properties_list) []

/-- `get_related_quantities` over a raw element. -/
def get_related_quantities_raw (e : RawElement) : List IfcElementQuantity :=
  e.isDefinedBy.foldl (fun quantities_list x =>
    match x with
    | RawRelDefines.byProperties (RawPropertySetDefinition.elementQuantity q) =>
        quantities_list ++ [q]
    | _ => quantities_list) []

/-- `get_all_pset_data` with Python semantics: a fault of the flattener
propagates out of the aggregator. -/
def get_all_pset_data_raw (e : RawElement) : Except String AttrDict :=
  exceptFold (fun pset_dict x =>
    match get_property_single_value_raw x with
    | Except.error er => Except.error er
    | Except.ok m => Except.ok (pyUpdate pset_dict m)) (get_related_property_sets_raw e) []

/-- `get_all_quantity_data` with Python semantics. -/
def get_all_quantity_data_raw (e : RawElement) : Except String AttrDict :=
  exceptFold (fun pset_dict x =>
    match get_quantity_single_value_raw x with
    | Except.error er => Except.error er
    | Except.ok m => Except.ok (pyUpdate pset_dict m)) (get_related_quantities_raw e) []

/-- Well-formedness of a raw element: every related property set
conforms to the data model. -/
def RawElement.conformsB (e : RawElement) : Bool :=
  (get_related_property_sets_raw e).all RawPropertySet.conformsB

/-- Project a raw definition onto the typed data model. -/
def RawPropertySetDefinition.toTyped : RawPropertySetDefinition → IfcPropertySetDefinition
  | RawPropertySetDefinition.propertySet ps =>
      IfcPropertySetDefinition.propertySet ps.toTyped
  | RawPropertySetDefinition.elementQuantity q =>
      IfcPropertySetDefinition.elementQuantity q
  | RawPropertySetDefinition.otherDefinition n =>
      IfcPropertySetDefinition.otherDefinition n

/-- Project a raw relationship onto the typed data model. -/
def RawRelDefines.toTyped : RawRelDefines → IfcRelDefines
  | RawRelDefines.byProperties d => IfcRelDefines.byProperties d.toTyped
  | RawRelDefines.byType t => IfcRelDefines.byType t

/-- Project a raw element onto the typed data model. -/
def RawElement.toTyped (e : RawElement) : IfcElement :=
  ⟨e.isDefinedBy.map RawRelDefines.toTyped⟩

/- ### Dictionary lemmas -/

theorem orE_none_right {α : Type} (a : Option α) : orE a none = a := by
  cases a <;> rfl

theorem orE_assoc {α : Type} (a b c : Option α) :
    orE (orE a b) c = orE a (orE b c) := by
  cases a <;> rfl

theorem dictGet_pyUpdate1 (d : AttrDict) (k : AttrKey) (v : Option IfcValue) (k' : AttrKey) :
    dictGet (pyUpdate1 d k v) k' = if k' = k then some v else dictGet d k' := by
  induction d with
  | nil =>
    by_cases h : k' = k
    · subst h; simp [pyUpdate1, dictGet]
    · simp [pyUpdate1, dictGet, h, Ne.symm h]
  | cons p ps ih =>
    by_cases h : p.1 = k
    · subst h
      simp only [pyUpdate1, if_pos rfl, dictGet]
      by_cases h' : k' = p.1
      · subst h'; simp
      · simp [h', Ne.symm h']
    · simp only [pyUpdate1, if_neg h, dictGet]
      by_cases h' : p.1 = k'
      · have hk : ¬ k' = k := fun hh => h (h'.trans hh)
        simp [h', hk]
      · simp [h', ih]

theorem lastOcc_append (a b : AttrDict) (k : AttrKey) :
    lastOcc (a ++ b) k = orE (lastOcc b k) (lastOcc a k) := by
  induction a with
  | nil => simp [lastOcc, orE_none_right]
  | cons p a ih =>
    show orE (lastOcc (a ++ b) k) (if p.1 = k then some p.2 else none) =
      orE (lastOcc b k) (orE (lastOcc a k) (if p.1 = k then some p.2 else none))
    rw [ih, orE_assoc]

theorem pyUpdate_nil (d : AttrDict) : pyUpdate d [] = d := rfl

theorem pyUpdate_cons (d : AttrDict) (p : AttrKey × Option IfcValue) (e : AttrDict) :
    pyUpdate d (p :: e) = pyUpdate (pyUpdate1 d p.1 p.2) e := rfl

theorem pyUpdate_append (d a b : AttrDict) :
    pyUpdate d (a ++ b) = pyUpdate (pyUpdate d a) b := by
  simp [pyUpdate, List.foldl_append]

theorem dictGet_pyUpdate (e d : AttrDict) (k : AttrKey) :
    dictGet (pyUpdate d e) k = orE (lastOcc e k) (dictGet d k) := by
  induction e generalizing d with
  | nil => simp [pyUpdate_nil, lastOcc, orE]
  | cons p e ih =>
    rw [pyUpdate_cons, ih, dictGet_pyUpdate1]
    simp only [lastOcc]
    rw [orE_assoc]
    by_cases h : p.1 = k
    · subst h; simp [orE]
    · have hk : ¬ k = p.1 := fun hh => h hh.symm
      simp [h, hk, orE]

/-- The keys of a dict, in order. -/
def dictKeys (d : AttrDict) : List AttrKey := d.map Prod.fst

theorem dictKeys_cons (p : AttrKey × Option IfcValue) (ps : AttrDict) :
    dictKeys (p :: ps) = p.1 :: dictKeys ps := rfl

theorem pyUpdate1_of_head_eq (p : AttrKey × Option IfcValue) (ps : AttrDict)
    (k : AttrKey) (v : Option IfcValue) (hp : p.1 = k) :
    pyUpdate1 (p :: ps) k v = (k, v) :: ps := by
  simp [pyUpdate1, hp]

theorem pyUpdate1_of_head_ne (p : AttrKey × Option IfcValue) (ps : AttrDict)
    (k : AttrKey) (v : Option IfcValue) (hp : ¬ p.1 = k) :
    pyUpdate1 (p :: ps) k v = p :: pyUpdate1 ps k v := by
  simp [pyUpdate1, hp]

theorem mem_dictKeys_pyUpdate1 (d : AttrDict) (k : AttrKey) (v : Option IfcValue) (a : AttrKey) :
    a ∈ dictKeys (pyUpdate1 d k v) ↔ a ∈ dictKeys d ∨ a = k := by
  induction d with
  | nil => simp [pyUpdate1, dictKeys]
  | cons p ps ih =>
    by_cases hp : p.1 = k
    · rw [pyUpdate1_of_head_eq p ps k v hp, dictKeys_cons, dictKeys_cons,
        List.mem_cons, List.mem_cons, hp]
      tauto
    · rw [pyUpdate1_of_head_ne p ps k v hp, dictKeys_cons, dictKeys_cons,
        List.mem_cons, List.mem_cons, ih]
      tauto

theorem lastOcc_eq_none_of_not_mem_keys (d : AttrDict) (k : AttrKey)
    (h : ¬ k ∈ dictKeys d) : lastOcc d k = none := by
  induction d with
  | nil => rfl
  | cons p ps ih =>
    rw [dictKeys_cons, List.mem_cons, not_or] at h
    have hne : ¬ p.1 = k := fun hh => h.1 hh.symm
    simp [lastOcc, ih h.2, hne, orE]

theorem nodupKeys_pyUpdate1 (d : AttrDict) (k : AttrKey) (v : Option IfcValue)
    (h : (dictKeys d).Nodup) : (dictKeys (pyUpdate1 d k v)).Nodup := by
  induction d with
  | nil => simp [pyUpdate1, dictKeys]
  | cons p ps ih =>
    rw [dictKeys_cons, List.nodup_cons] at h
    by_cases hp : p.1 = k
    · rw [pyUpdate1_of_head_eq p ps k v hp, dictKeys_cons, List.nodup_cons]
      exact ⟨hp ▸ h.1, h.2⟩
    · rw [pyUpdate1_of_head_ne p ps k v hp, dictKeys_cons, List.nodup_cons]
      constructor
      · intro hmem
        rcases (mem_dictKeys_pyUpdate1 ps k v p.1).mp hmem with hc | hc
        · exact h.1 hc
        · exact hp hc
      · exact ih h.2

theorem nodupKeys_pyUpdate (e d : AttrDict)
    (h : (dictKeys d).Nodup) : (dictKeys (pyUpdate d e)).Nodup := by
  induction e generalizing d with
  | nil => simpa [pyUpdate_nil] using h
  | cons p e ih =>
    rw [pyUpdate_cons]
    exact ih _ (nodupKeys_pyUpdate1 _ _ _ h)

theorem lastOcc_eq_dictGet_of_nodup (d : AttrDict) (k : AttrKey)
    (h : (dictKeys d).Nodup) : lastOcc d k = dictGet d k := by
  induction d with
  | nil => rfl
  | cons p ps ih =>
    rw [dictKeys_cons, List.nodup_cons] at h
    by_cases hp : p.1 = k
    · have hnm : ¬ k ∈ dictKeys ps := hp ▸ h.1
      simp [lastOcc, dictGet, hp, lastOcc_eq_none_of_not_mem_keys ps k hnm, orE]
    · simp [lastOcc, dictGet, hp, ih h.2, orE_none_right]

/- ### Emission characterization of the property flattener -/

theorem catMap_cons {α β : Type} (f : α → List β) (y : α) (l : List α) :
    catMap f (y :: l) = f y ++ catMap f l := rfl

theorem mem_catMap {α β : Type} (f : α → List β) (l : List α) (p : β) :
    p ∈ catMap f l ↔ ∃ y ∈ l, p ∈ f y := by
  induction l with
  | nil => simp [catMap]
  | cons y l ih => simp [catMap_cons, List.mem_append, ih]

theorem svLoop_eq (s : String) (d : AttrDict) (z : SingleValueData) :
    svLoop s d z = pyUpdate d (svEmit s z) := by
  unfold svLoop svEmit
  cases z.nominalValue <;> rfl

theorem complexFold (zs : List SingleValueData) (s : String) (d : AttrDict) :
    zs.foldl (svLoop s) d = pyUpdate d (catMap (svEmit s) zs) := by
  induction zs generalizing d with
  | nil => rfl
  | cons z zs ih =>
    rw [List.foldl_cons, ih, svLoop_eq, catMap_cons, pyUpdate_append]

theorem propLoop_eq (s : String) (d : AttrDict) (y : IfcProperty) :
    propLoop s d y = pyUpdate d (propEmits s y) := by
  cases y with
  | singleValue sv => exact svLoop_eq s d sv
  | complexProperty c zs => exact complexFold zs s d
  | otherProperty n => rfl

theorem propFold (l : List IfcProperty) (s : String) (d : AttrDict) :
    l.foldl (propLoop s) d = pyUpdate d (catMap (propEmits s) l) := by
  induction l generalizing d with
  | nil => rfl
  | cons y l ih =>
    rw [List.foldl_cons, ih, propLoop_eq, catMap_cons, pyUpdate_append]

theorem gpsv_eq (x : IfcPropertySet) :
    get_property_single_value x = pyUpdate [] (catMap (propEmits x.name) x.hasProperties) :=
  propFold x.hasProperties x.name []

theorem dictGet_gpsv (x : IfcPropertySet) (k : AttrKey) :
    dictGet (get_property_single_value x) k =
      lastOcc (catMap (propEmits x.name) x.hasProperties) k := by
  rw [gpsv_eq, dictGet_pyUpdate]
  exact orE_none_right _

theorem quantLoop_eq (s : String) (d : AttrDict) (y : IfcQuantity) :
    quantLoop s d y = pyUpdate d (quantEmits s y) := by
  cases y <;> rfl

theorem quantFold (l : List IfcQuantity) (s : String) (d : AttrDict) :
    l.foldl (quantLoop s) d = pyUpdate d (catMap (quantEmits s) l) := by
  induction l generalizing d with
  | nil => rfl
  | cons y l ih =>
    rw [List.foldl_cons, ih, quantLoop_eq, catMap_cons, pyUpdate_append]

theorem gqsv_eq (x : IfcElementQuantity) :
    get_quantity_single_value x = pyUpdate [] (catMap (quantEmits x.name) x.quantities) :=
  quantFold x.quantities x.name []

theorem dictGet_gqsv (x : IfcElementQuantity) (k : AttrKey) :
    dictGet (get_quantity_single_value x) k =
      lastOcc (catMap (quantEmits x.name) x.quantities) k := by
  rw [gqsv_eq, dictGet_pyUpdate]
  exact orE_none_right _

/- ### Keyed lookup lemmas for the flatteners -/

theorem lastOcc_eq_none_of_keys_ne (e : AttrDict) (k : AttrKey)
    (h : ∀ p ∈ e, ¬ p.1 = k) : lastOcc e k = none := by
  induction e with
  | nil => rfl
  | cons p ps ih =>
    have h1 : ¬ p.1 = k := h p (List.mem_cons_self p ps)
    have h2 : ∀ q ∈ ps, ¬ q.1 = k := fun q hq => h q (List.mem_cons_of_mem p hq)
    simp [lastOcc, ih h2, h1, orE]

theorem mem_svEmit (s : String) (z : SingleValueData) (p : AttrKey × Option IfcValue)
    (h : p ∈ svEmit s z) : p.1 = AttrKey.pair s z.name := by
  unfold svEmit at h
  cases hz : z.nominalValue with
  | none => rw [hz] at h; cases h
  | some v =>
    rw [hz] at h
    rw [List.mem_singleton] at h
    subst h
    rfl

theorem lastOcc_svEmit_self (s : String) (z : SingleValueData) :
    lastOcc (svEmit s z) (AttrKey.pair s z.name) = z.nominalValue.map some := by
  unfold svEmit
  cases z.nominalValue <;> simp [lastOcc, orE]

theorem lastOcc_svEmit_ne (s : String) (z : SingleValueData) (n : String)
    (h : ¬ z.name = n) : lastOcc (svEmit s z) (AttrKey.pair s n) = none := by
  apply lastOcc_eq_none_of_keys_ne
  intro p hp
  rw [mem_svEmit s z p hp]
  intro hc
  cases hc
  exact h rfl

theorem lastOcc_catMap_svEmit_ne (s : String) (zs : List SingleValueData) (n : String)
    (h : ¬ n ∈ zs.map SingleValueData.name) :
    lastOcc (catMap (svEmit s) zs) (AttrKey.pair s n) = none := by
  apply lastOcc_eq_none_of_keys_ne
  intro p hp
  rcases (mem_catMap _ _ _).mp hp with ⟨z, hz, hpz⟩
  rw [mem_svEmit s z p hpz]
  intro hc
  cases hc
  exact h (List.mem_map_of_mem SingleValueData.name hz)

theorem lastOcc_catMap_svEmit (s : String) (zs : List SingleValueData) (z : SingleValueData)
    (hz : z ∈ zs) (hnd : (zs.map SingleValueData.name).Nodup) :
    lastOcc (catMap (svEmit s) zs) (AttrKey.pair s z.name) = z.nominalValue.map some := by
  induction zs with
  | nil => cases hz
  | cons w zs ih =>
    rw [List.map_cons, List.nodup_cons] at hnd
    rw [catMap_cons, lastOcc_append]
    rw [List.mem_cons] at hz
    rcases hz with hz | hz
    · subst hz
      rw [lastOcc_catMap_svEmit_ne s zs z.name hnd.1, lastOcc_svEmit_self]
      rfl
    · rw [ih hz hnd.2]
      cases hv : z.nominalValue with
      | some v => rfl
      | none =>
        have hne : ¬ w.name = z.name := by
          intro hc
          exact hnd.1 (hc ▸ List.mem_map_of_mem SingleValueData.name hz)
        rw [lastOcc_svEmit_ne s w z.name hne]
        rfl

theorem allPropNames_cons (y : IfcProperty) (l : List IfcProperty) :
    allPropNames (y :: l) = propNames y ++ allPropNames l := rfl

theorem mem_propEmits (s : String) (y : IfcProperty) (p : AttrKey × Option IfcValue)
    (h : p ∈ propEmits s y) : ∃ m ∈ propNames y, p.1 = AttrKey.pair s m := by
  cases y with
  | singleValue sv =>
    exact ⟨sv.name, List.mem_singleton_self _, mem_svEmit s sv p h⟩
  | complexProperty c zs =>
    rcases (mem_catMap _ _ _).mp h with ⟨z, hz, hpz⟩
    exact ⟨z.name, List.mem_map_of_mem SingleValueData.name hz, mem_svEmit s z p hpz⟩
  | otherProperty n => cases h

theorem lastOcc_propEmits_ne (s : String) (y : IfcProperty) (n : String)
    (h : ¬ n ∈ propNames y) : lastOcc (propEmits s y) (AttrKey.pair s n) = none := by
  apply lastOcc_eq_none_of_keys_ne
  intro p hp
  rcases mem_propEmits s y p hp with ⟨m, hm, hpm⟩
  rw [hpm]
  intro hc
  cases hc
  exact h hm

theorem lastOcc_catMap_propEmits_ne (s : String) (l : List IfcProperty) (n : String)
    (h : ¬ n ∈ allPropNames l) :
    lastOcc (catMap (propEmits s) l) (AttrKey.pair s n) = none := by
  apply lastOcc_eq_none_of_keys_ne
  intro p hp
  rcases (mem_catMap _ _ _).mp hp with ⟨y, hy, hpy⟩
  rcases mem_propEmits s y p hpy with ⟨m, hm, hpm⟩
  rw [hpm]
  intro hc
  cases hc
  exact h ((mem_catMap propNames l n).mpr ⟨y, hy, hm⟩)

theorem mem_allPropNames_of_mem (l : List IfcProperty) (y : IfcProperty) (m : String)
    (hy : y ∈ l) (hm : m ∈ propNames y) : m ∈ allPropNames l :=
  (mem_catMap propNames l m).mpr ⟨y, hy, hm⟩

theorem lastOcc_catMap_propEmits_sv (s : String) (l : List IfcProperty)
    (sv : SingleValueData) (hmem : IfcProperty.singleValue sv ∈ l)
    (hnd : (allPropNames l).Nodup) :
    lastOcc (catMap (propEmits s) l) (AttrKey.pair s sv.name) = sv.nominalValue.map some := by
  induction l with
  | nil => cases hmem
  | cons y l ih =>
    rw [allPropNames_cons, List.nodup_append] at hnd
    rw [catMap_cons, lastOcc_append]
    rw [List.mem_cons] at hmem
    rcases hmem with hmem | hmem
    · subst hmem
      have hn : ¬ sv.name ∈ allPropNames l :=
        fun hc => hnd.2.2 (List.mem_singleton_self _) hc
      rw [lastOcc_catMap_propEmits_ne s l sv.name hn]
      show lastOcc (svEmit s sv) (AttrKey.pair s sv.name) = sv.nominalValue.map some
      exact lastOcc_svEmit_self s sv
    · rw [ih hmem hnd.2.1]
      cases hv : sv.nominalValue with
      | some v => rfl
      | none =>
        have hin : sv.name ∈ allPropNames l :=
          mem_allPropNames_of_mem l _ sv.name hmem (List.mem_singleton_self _)
        have hny : ¬ sv.name ∈ propNames y := fun hc => hnd.2.2 hc hin
        rw [lastOcc_propEmits_ne s y sv.name hny]
        rfl

theorem lastOcc_catMap_propEmits_cx (s : String) (l : List IfcProperty)
    (c : String) (zs : List SingleValueData) (z : SingleValueData)
    (hmem : IfcProperty.complexProperty c zs ∈ l) (hz : z ∈ zs)
    (hnd : (allPropNames l).Nodup) :
    lastOcc (catMap (propEmits s) l) (AttrKey.pair s z.name) = z.nominalValue.map some := by
  induction l with
  | nil => cases hmem
  | cons y l ih =>
    rw [allPropNames_cons, List.nodup_append] at hnd
    rw [catMap_cons, lastOcc_append]
    rw [List.mem_cons] at hmem
    rcases hmem with hmem | hmem
    · subst hmem
      have hzn : z.name ∈ propNames (IfcProperty.complexProperty c zs) :=
        List.mem_map_of_mem SingleValueData.name hz
      have hn : ¬ z.name ∈ allPropNames l := fun hc => hnd.2.2 hzn hc
      rw [lastOcc_catMap_propEmits_ne s l z.name hn]
      show lastOcc (catMap (svEmit s) zs) (AttrKey.pair s z.name) = z.nominalValue.map some
      exact lastOcc_catMap_svEmit s zs z hz hnd.1
    · rw [ih hmem hnd.2.1]
      cases hv : z.nominalValue with
      | some v => rfl
      | none =>
        have hin : z.name ∈ allPropNames l :=
          mem_allPropNames_of_mem l _ z.name hmem
            (List.mem_map_of_mem SingleValueData.name hz)
        have hny : ¬ z.name ∈ propNames y := fun hc => hnd.2.2 hc hin
        rw [lastOcc_propEmits_ne s y z.name hny]
        rfl

theorem gpsv_lookup_sv (x : IfcPropertySet) (sv : SingleValueData)
    (hnd : (allPropNames x.hasProperties).Nodup)
    (hmem : IfcProperty.singleValue sv ∈ x.hasProperties) :
    dictGet (get_property_single_value x) (AttrKey.pair x.name sv.name) =
      sv.nominalValue.map some := by
  rw [dictGet_gpsv]
  exact lastOcc_catMap_propEmits_sv x.name x.hasProperties sv hmem hnd

theorem gpsv_lookup_cx (x : IfcPropertySet) (c : String) (zs : List SingleValueData)
    (z : SingleValueData) (hnd : (allPropNames x.hasProperties).Nodup)
    (hmem : IfcProperty.complexProperty c zs ∈ x.hasProperties) (hz : z ∈ zs) :
    dictGet (get_property_single_value x) (AttrKey.pair x.name z.name) =
      z.nominalValue.map some := by
  rw [dictGet_gpsv]
  exact lastOcc_catMap_propEmits_cx x.name x.hasProperties c zs z hmem hz hnd

theorem gpsv_lookup_absent (x : IfcPropertySet) (n : String)
    (h : ¬ n ∈ allPropNames x.hasProperties) :
    dictGet (get_property_single_value x) (AttrKey.pair x.name n) = none := by
  rw [dictGet_gpsv]
  exact lastOcc_catMap_propEmits_ne x.name x.hasProperties n h

/- ### Keyed lookup lemmas for the quantity flattener -/

theorem mem_quantEmits (s : String) (y : IfcQuantity) (p : AttrKey × Option IfcValue)
    (h : p ∈ quantEmits s y) : p.1 = AttrKey.pair s y.qname := by
  unfold quantEmits at h
  cases hq : y.quantScalar with
  | none => rw [hq] at h; cases h
  | some v =>
    rw [hq] at h
    rw [List.mem_singleton] at h
    subst h
    rfl

theorem lastOcc_quantEmits_self (s : String) (y : IfcQuantity) :
    lastOcc (quantEmits s y) (AttrKey.pair s y.qname) = y.quantScalar := by
  unfold quantEmits
  cases y.quantScalar <;> simp [lastOcc, orE]

theorem lastOcc_quantEmits_ne (s : String) (y : IfcQuantity) (n : String)
    (h : ¬ y.qname = n) : lastOcc (quantEmits s y) (AttrKey.pair s n) = none := by
  apply lastOcc_eq_none_of_keys_ne
  intro p hp
  rw [mem_quantEmits s y p hp]
  intro hc
  cases hc
  exact h rfl

theorem lastOcc_catMap_quantEmits_ne (s : String) (l : List IfcQuantity) (n : String)
    (h : ¬ n ∈ l.map IfcQuantity.qname) :
    lastOcc (catMap (quantEmits s) l) (AttrKey.pair s n) = none := by
  apply lastOcc_eq_none_of_keys_ne
  intro p hp
  rcases (mem_catMap _ _ _).mp hp with ⟨y, hy, hpy⟩
  rw [mem_quantEmits s y p hpy]
  intro hc
  cases hc
  exact h (List.mem_map_of_mem IfcQuantity.qname hy)

theorem lastOcc_catMap_quantEmits (s : String) (l : List IfcQuantity) (y : IfcQuantity)
    (hy : y ∈ l) (hnd : (l.map IfcQuantity.qname).Nodup) :
    lastOcc (catMap (quantEmits s) l) (AttrKey.pair s y.qname) = y.quantScalar := by
  induction l with
  | nil => cases hy
  | cons w l ih =>
    rw [List.map_cons, List.nodup_cons] at hnd
    rw [catMap_cons, lastOcc_append]
    rw [List.mem_cons] at hy
    rcases hy with hy | hy
    · subst hy
      rw [lastOcc_catMap_quantEmits_ne s l y.qname hnd.1, lastOcc_quantEmits_self]
      cases y.quantScalar <;> rfl
    · rw [ih hy hnd.2]
      cases hv : y.quantScalar with
      | some v => rfl
      | none =>
        have hne : ¬ w.qname = y.qname := by
          intro hc
          exact hnd.1 (hc ▸ List.mem_map_of_mem IfcQuantity.qname hy)
        rw [lastOcc_quantEmits_ne s w y.qname hne]
        rfl

theorem gqsv_lookup (x : IfcElementQuantity) (y : IfcQuantity)
    (hnd : (x.quantities.map IfcQuantity.qname).Nodup) (hy : y ∈ x.quantities) :
    dictGet (get_quantity_single_value x) (AttrKey.pair x.name y.qname) = y.quantScalar := by
  rw [dictGet_gqsv]
  exact lastOcc_catMap_quantEmits x.name x.quantities y hy hnd

/- ### Type flattener: every nested set writes one fixed key -/

theorem pyUpdate1_same (d : AttrDict) (k : AttrKey) (v v₂ : Option IfcValue) :
    pyUpdate1 (pyUpdate1 d k v) k v₂ = pyUpdate1 d k v₂ := by
  induction d with
  | nil => simp [pyUpdate1]
  | cons p ps ih =>
    by_cases hp : p.1 = k
    · rw [pyUpdate1_of_head_eq p ps k v hp, pyUpdate1_of_head_eq p ps k v₂ hp]
      simp [pyUpdate1]
    · rw [pyUpdate1_of_head_ne p ps k v hp, pyUpdate1_of_head_ne p ps k v₂ hp,
        pyUpdate1_of_head_ne p (pyUpdate1 ps k v) k v₂ hp, ih]

theorem typeFold (l : List TypeNestedSet) (nm : String) (d : AttrDict) :
    l.foldl (typeSetLoop nm) d =
      match lastNamed l with
      | none => d
      | some yn =>
          pyUpdate1 d (AttrKey.typeKey (typeDefTag ++ nm)) (some (IfcValue.str yn)) := by
  induction l generalizing d with
  | nil => rfl
  | cons y l ih =>
    rw [List.foldl_cons, ih]
    cases hl : lastNamed l with
    | some n =>
      cases hy : y.name with
      | some yn => simp [lastNamed, hl, typeSetLoop, hy, pyUpdate1_same]
      | none => simp [lastNamed, hl, typeSetLoop, hy]
    | none =>
      cases hy : y.name with
      | some yn => simp [lastNamed, hl, typeSetLoop, hy]
      | none => simp [lastNamed, hl, typeSetLoop, hy]

/- ### Merging flattener outputs -/

theorem foldMerge {α : Type} (f : α → AttrDict) (l : List α) (d : AttrDict) (k : AttrKey) :
    dictGet (l.foldl (fun acc x => pyUpdate acc (f x)) d) k =
      orE (dictGet (l.foldl (fun acc x => pyUpdate acc (f x)) []) k) (dictGet d k) := by
  induction l generalizing d with
  | nil => rfl
  | cons x l ih =>
    rw [List.foldl_cons, ih, List.foldl_cons, ih (pyUpdate [] (f x)),
      dictGet_pyUpdate, dictGet_pyUpdate]
    have hnil : dictGet ([] : AttrDict) k = none := rfl
    rw [hnil, orE_none_right, orE_assoc]

theorem nodupKeys_foldMerge {α : Type} (f : α → AttrDict) (l : List α) (d : AttrDict)
    (h : (dictKeys d).Nodup) :
    (dictKeys (l.foldl (fun acc x => pyUpdate acc (f x)) d)).Nodup := by
  induction l generalizing d with
  | nil => exact h
  | cons x l ih =>
    rw [List.foldl_cons]
    exact ih _ (nodupKeys_pyUpdate _ _ h)

/- ### Relation filter lemmas -/

/-- The kind filter of `get_related_property_sets` seen as a partial
projection of one property set definition. -/
def pickPropertySet : IfcPropertySetDefinition → Option IfcPropertySet
  | IfcPropertySetDefinition.propertySet ps => some ps
  | _ => none

/-- The kind filter of `get_related_quantities` seen as a partial
projection of one property set definition. -/
def pickElementQuantity : IfcPropertySetDefinition → Option IfcElementQuantity
  | IfcPropertySetDefinition.elementQuantity q => some q
  | _ => none

theorem grps_fold (l : List IfcRelDefines) (acc : List IfcPropertySet) :
    l.foldl (fun properties_list x =>
      match x with
      | IfcRelDefines.byProperties (IfcPropertySetDefinition.propertySet ps) =>
          properties_list ++ [ps]
      | _ => properties_list) acc =
    acc ++ (l.filterMap (fun x =>
      match x with
      | IfcRelDefines.byProperties d => some d
      | IfcRelDefines.byType _ => none)).filterMap pickPropertySet := by
  induction l generalizing acc with
  | nil => simp
  | cons x l ih =>
    cases x with
    | byProperties d =>
      cases d with
      | propertySet ps => simp [List.filterMap_cons, pickPropertySet, ih]
      | elementQuantity q => simp [List.filterMap_cons, pickPropertySet, ih]
      | otherDefinition n => simp [List.filterMap_cons, pickPropertySet, ih]
    | byType t => simp [List.filterMap_cons, ih]

theorem grq_fold (l : List IfcRelDefines) (acc : List IfcElementQuantity) :
    l.foldl (fun quantities_list x =>
      match x with
      | IfcRelDefines.byProperties (IfcPropertySetDefinition.elementQuantity q) =>
          quantities_list ++ [q]
      | _ => quantities_list) acc =
    acc ++ (l.filterMap (fun x =>
      match x with
      | IfcRelDefines.byProperties d => some d
      | IfcRelDefines.byType _ => none)).filterMap pickElementQuantity := by
  induction l generalizing acc with
  | nil => simp
  | cons x l ih =>
    cases x with
    | byProperties d =>
      cases d with
      | propertySet ps => simp [List.filterMap_cons, pickElementQuantity, ih]
      | elementQuantity q => simp [List.filterMap_cons, pickElementQuantity, ih]
      | otherDefinition n => simp [List.filterMap_cons, pickElementQuantity, ih]
    | byType t => simp [List.filterMap_cons, ih]

theorem grps_eq (e : IfcElement) :
    get_related_property_sets e = (get_related_properties e).filterMap pickPropertySet := by
  rw [get_related_property_sets, grps_fold, get_related_properties]
  rfl

theorem grq_eq (e : IfcElement) :
    get_related_quantities e = (get_related_properties e).filterMap pickElementQuantity := by
  rw [get_related_quantities, grq_fold, get_related_properties]
  rfl

theorem sublist_filterMap_pickPropertySet (L : List IfcPropertySetDefinition) :
    List.Sublist ((L.filterMap pickPropertySet).map IfcPropertySetDefinition.propertySet) L := by
  induction L with
  | nil => simp
  | cons d L ih =>
    cases d with
    | propertySet ps =>
      rw [List.filterMap_cons]
      exact List.Sublist.cons₂ _ ih
    | elementQuantity q =>
      rw [List.filterMap_cons]
      exact List.Sublist.cons _ ih
    | otherDefinition n =>
      rw [List.filterMap_cons]
      exact List.Sublist.cons _ ih

theorem sublist_filterMap_pickElementQuantity (L : List IfcPropertySetDefinition) :
    List.Sublist ((L.filterMap pickElementQuantity).map IfcPropertySetDefinition.elementQuantity) L := by
  induction L with
  | nil => simp
  | cons d L ih =>
    cases d with
    | propertySet ps =>
      rw [List.filterMap_cons]
      exact List.Sublist.cons _ ih
    | elementQuantity q =>
      rw [List.filterMap_cons]
      exact List.Sublist.cons₂ _ ih
    | otherDefinition n =>
      rw [List.filterMap_cons]
      exact List.Sublist.cons _ ih

/- ### Raw layer: the error branches are unreachable on conforming data -/

theorem rawPropInner_single (s : String) (d : AttrDict) (sv : SingleValueData) :
    rawPropInner s d (RawProperty.singleValue sv) = Except.ok (svLoop s d sv) := by
  obtain ⟨n, nv⟩ := sv
  unfold rawPropInner RawProperty.nominalValueE svLoop
  cases nv <;> rfl

theorem raw_inner_ok (zs : List RawProperty) (s : String) (d : AttrDict)
    (h : zs.all RawProperty.isSingleB = true) :
    exceptFold (rawPropInner s) zs d =
      Except.ok ((zs.filterMap RawProperty.asSingle).foldl (svLoop s) d) := by
  induction zs generalizing d with
  | nil => rfl
  | cons z zs ih =>
    rw [List.all_cons, Bool.and_eq_true] at h
    cases z with
    | singleValue sv =>
      have hfm : (RawProperty.singleValue sv :: zs).filterMap RawProperty.asSingle =
          sv :: zs.filterMap RawProperty.asSingle := by
        simp [RawProperty.asSingle]
      rw [hfm, List.foldl_cons]
      simp only [exceptFold, rawPropInner_single]
      exact ih _ h.2
    | complexProperty n ws => simp [RawProperty.isSingleB] at h
    | otherNoValue n => simp [RawProperty.isSingleB] at h

theorem raw_step_ok (s : String) (d : AttrDict) (y : RawProperty)
    (h : RawProperty.conformsB y = true) :
    rawPropStep s d y = Except.ok (propLoop s d y.toTyped) := by
  cases y with
  | singleValue sv =>
    show Except.ok _ = Except.ok (svLoop s d sv)
    unfold svLoop
    cases sv.nominalValue <;> rfl
  | complexProperty n zs =>
    exact raw_inner_ok zs s d h
  | otherNoValue n => rfl

theorem raw_pset_fold_ok (l : List RawProperty) (s : String) (d : AttrDict)
    (h : l.all RawProperty.conformsB = true) :
    exceptFold (fun d y => rawPropStep s d y) l d =
      Except.ok ((l.map RawProperty.toTyped).foldl (propLoop s) d) := by
  induction l generalizing d with
  | nil => rfl
  | cons y l ih =>
    rw [List.all_cons, Bool.and_eq_true] at h
    simp only [exceptFold, raw_step_ok s d y h.1]
    rw [ih _ h.2]
    rfl

theorem gpsv_raw_ok (x : RawPropertySet) (h : RawPropertySet.conformsB x = true) :
    get_property_single_value_raw x =
      Except.ok (get_property_single_value x.toTyped) :=
  raw_pset_fold_ok x.hasProperties x.name [] h

theorem raw_quant_step_ok (s : String) (d : AttrDict) (y : IfcQuantity) :
    rawQuantStep s d y = Except.ok (quantLoop s d y) := by
  cases y <;> rfl

theorem raw_quant_fold_ok (l : List IfcQuantity) (s : String) (d : AttrDict) :
    exceptFold (fun d y => rawQuantStep s d y) l d =
      Except.ok (l.foldl (quantLoop s) d) := by
  induction l generalizing d with
  | nil => rfl
  | cons y l ih =>
    simp only [exceptFold, raw_quant_step_ok s d y]
    rw [ih, List.foldl_cons]

theorem gqsv_raw_ok (x : IfcElementQuantity) :
    get_quantity_single_value_raw x = Except.ok (get_quantity_single_value x) :=
  raw_quant_fold_ok x.quantities x.name []

theorem raw_typed_grps (l : List RawRelDefines) (acc : List RawPropertySet) :
    (l.map RawRelDefines.toTyped).foldl (fun properties_list x =>
      match x with
      | IfcRelDefines.byProperties (IfcPropertySetDefinition.propertySet ps) =>
          properties_list ++ [ps]
      | _ => properties_list) (acc.map RawPropertySet.toTyped) =
    (l.foldl (fun properties_list x =>
      match x with
      | RawRelDefines.byProperties (RawPropertySetDefinition.propertySet ps) =>
          properties_list ++ [ps]
      | _ => properties_list) acc).map RawPropertySet.toTyped := by
  induction l generalizing acc with
  | nil => rfl
  | cons x l ih =>
    cases x with
    | byProperties d =>
      cases d with
      | propertySet ps =>
        have : (acc.map RawPropertySet.toTyped) ++ [ps.toTyped] =
            (acc ++ [ps]).map RawPropertySet.toTyped := by simp
        simp only [List.map_cons, List.foldl_cons, RawRelDefines.toTyped,
          RawPropertySetDefinition.toTyped, this, ih]
      | elementQuantity q =>
        simp only [List.map_cons, List.foldl_cons, RawRelDefines.toTyped,
          RawPropertySetDefinition.toTyped, ih]
      | otherDefinition n =>
        simp only [List.map_cons, List.foldl_cons, RawRelDefines.toTyped,
          RawPropertySetDefinition.toTyped, ih]
    | byType t =>
      simp only [List.map_cons, List.foldl_cons, RawRelDefines.toTyped, ih]

theorem grps_toTyped (e : RawElement) :
    get_related_property_sets e.toTyped =
      (get_related_property_sets_raw e).map RawPropertySet.toTyped := by
  have := raw_typed_grps e.isDefinedBy []
  simpa [get_related_property_sets, get_related_property_sets_raw, RawElement.toTyped]
    using this

theorem raw_typed_grq (l : List RawRelDefines) (acc : List IfcElementQuantity) :
    (l.map RawRelDefines.toTyped).foldl (fun quantities_list x =>
      match x with
      | IfcRelDefines.byProperties (IfcPropertySetDefinition.elementQuantity q) =>
          quantities_list ++ [q]
      | _ => quantities_list) acc =
    l.foldl (fun quantities_list x =>
      match x with
      | RawRelDefines.byProperties (RawPropertySetDefinition.elementQuantity q) =>
          quantities_list ++ [q]
      | _ => quantities_list) acc := by
  induction l generalizing acc with
  | nil => rfl
  | cons x l ih =>
    cases x with
    | byProperties d =>
      cases d with
      | propertySet ps =>
        simp only [List.map_cons, List.foldl_cons, RawRelDefines.toTyped,
          RawPropertySetDefinition.toTyped, ih]
      | elementQuantity q =>
        simp only [List.map_cons, List.foldl_cons, RawRelDefines.toTyped,
          RawPropertySetDefinition.toTyped, ih]
      | otherDefinition n =>
        simp only [List.map_cons, List.foldl_cons, RawRelDefines.toTyped,
          RawPropertySetDefinition.toTyped, ih]
    | byType t =>
      simp only [List.map_cons, List.foldl_cons, RawRelDefines.toTyped, ih]

theorem grq_toTyped (e : RawElement) :
    get_related_quantities e.toTyped = get_related_quantities_raw e := by
  have := raw_typed_grq e.isDefinedBy []
  simpa [get_related_quantities, get_related_quantities_raw, RawElement.toTyped]
    using this

theorem raw_pset_agg_ok (L : List RawPropertySet) (d : AttrDict)
    (h : L.all RawPropertySet.conformsB = true) :
    exceptFold (fun pset_dict x =>
      match get_property_single_value_raw x with
      | Except.error er => Except.error er
      | Except.ok m => Except.ok (pyUpdate pset_dict m)) L d =
    Except.ok ((L.map RawPropertySet.toTyped).foldl
      (fun pset_dict x => pyUpdate pset_dict (get_property_single_value x)) d) := by
  induction L generalizing d with
  | nil => rfl
  | cons ps L ih =>
    rw [List.all_cons, Bool.and_eq_true] at h
    simp only [exceptFold, gpsv_raw_ok ps h.1]
    rw [ih _ h.2]
    rfl

theorem gapd_raw_ok (e : RawElement) (h : RawElement.conformsB e = true) :
    get_all_pset_data_raw e = Except.ok (get_all_pset_data e.toTyped) := by
  rw [get_all_pset_data_raw, get_all_pset_data, grps_toTyped]
  exact raw_pset_agg_ok (get_related_property_sets_raw e) [] h

theorem raw_quant_agg_ok (L : List IfcElementQuantity) (d : AttrDict) :
    exceptFold (fun pset_dict x =>
      match get_quantity_single_value_raw x with
      | Except.error er => Except.error er
      | Except.ok m => Except.ok (pyUpdate pset_dict m)) L d =
    Except.ok (L.foldl
      (fun pset_dict x => pyUpdate pset_dict (get_quantity_single_value x)) d) := by
  induction L generalizing d with
  | nil => rfl
  | cons q L ih =>
    simp only [exceptFold, gqsv_raw_ok q]
    rw [ih, List.foldl_cons]

theorem gaqd_raw_ok (e : RawElement) :
    get_all_quantity_data_raw e = Except.ok (get_all_quantity_data e.toTyped) := by
  rw [get_all_quantity_data_raw, get_all_quantity_data, grq_toTyped]
  exact raw_quant_agg_ok (get_related_quantities_raw e) []

/- ### Claim theorems -/

/-- Claim C1: for every Property Set, the property flattener handles a
Complex Property record by recursing exactly one level into its nested
records: under uniqueness of the set's record names, each nested single
value with a present wrapped value surfaces under key
(set name, nested record name) mapped to that value, and a nested record
with an absent value surfaces under no key (first conjunct, since
`Option.map some` sends `none` to `none`); the Complex Property's own name
is dropped: the loop body's handling of the record does not depend on that
name at all (second conjunct), and when no record of the set carries the
complex's name, that name appears under no key of the output (third
conjunct). -/
theorem c1_complex_property_flattening (x : IfcPropertySet) (c : String)
    (zs : List SingleValueData)
    (hmem : IfcProperty.complexProperty c zs ∈ x.hasProperties) :
    ((allPropNames x.hasProperties).Nodup →
      ∀ z ∈ zs, dictGet (get_property_single_value x) (AttrKey.pair x.name z.name) =
        z.nominalValue.map some)
    ∧ (∀ (s c' : String) (d : AttrDict),
        propLoop s d (IfcProperty.complexProperty c zs) =
          propLoop s d (IfcProperty.complexProperty c' zs))
    ∧ (¬ c ∈ allPropNames x.hasProperties →
        dictGet (get_property_single_value x) (AttrKey.pair x.name c) = none) := by
  refine ⟨?_, ?_, ?_⟩
  · intro hnd z hz
    exact gpsv_lookup_cx x c zs z hnd hmem hz
  · intro s c' d
    rfl
  · intro hnotin
    exact gpsv_lookup_absent x c hnotin

/-- The concrete property set of the specification's example: a set
containing one Complex Property that nests one single value. -/
def c1x : IfcPropertySet :=
  IfcPropertySet.mk ("S")
    [IfcProperty.complexProperty ("Complex1")
      [SingleValueData.mk ("Sub1") (some (IfcValue.int 3))]]

/-- Witness for C1 at the specification's example. -/
theorem c1_complex_property_flattening_witness :
    IfcProperty.complexProperty ("Complex1")
      [SingleValueData.mk ("Sub1") (some (IfcValue.int 3))] ∈ c1x.hasProperties
    ∧ (allPropNames c1x.hasProperties).Nodup
    ∧ dictGet (get_property_single_value c1x) (AttrKey.pair ("S") ("Sub1")) =
        some (some (IfcValue.int 3))
    ∧ dictGet (get_property_single_value c1x) (AttrKey.pair ("S") ("Complex1")) = none := by
  have h := c1_complex_property_flattening c1x ("Complex1")
    [SingleValueData.mk ("Sub1") (some (IfcValue.int 3))] (by decide)
  exact ⟨by decide, by decide,
    h.1 (by decide) (SingleValueData.mk ("Sub1") (some (IfcValue.int 3))) (by decide),
    h.2.2 (by decide)⟩

/-- Claim C2: the value flatteners other than the type flattener, and the
aggregators over them, never raise on well-formed input.  Modelled with
Python attribute-access semantics (the `raw` layer): the property flattener
succeeds on every property set conforming to the data model (a complex
property nests only single values); the quantity flattener succeeds
unconditionally, since each of its five fallible scalar reads is guarded by
the matching `is_a` test; and the two aggregators over them succeed on
every conforming element, returning exactly the typed model's maps. -/
theorem c2_extractors_never_raise :
    (∀ (xs : RawPropertySet), RawPropertySet.conformsB xs = true →
      get_property_single_value_raw xs =
        Except.ok (get_property_single_value xs.toTyped))
    ∧ (∀ (xq : IfcElementQuantity),
      get_quantity_single_value_raw xq = Except.ok (get_quantity_single_value xq))
    ∧ (∀ (e : RawElement), RawElement.conformsB e = true →
      get_all_pset_data_raw e = Except.ok (get_all_pset_data e.toTyped)
      ∧ get_all_quantity_data_raw e = Except.ok (get_all_quantity_data e.toTyped)) :=
  ⟨gpsv_raw_ok, gqsv_raw_ok, fun e h => ⟨gapd_raw_ok e h, gaqd_raw_ok e⟩⟩

/-- A conforming raw element: one related property set holding a complex
property over single values, and one related quantity set. -/
def c2e : RawElement :=
  RawElement.mk
    [RawRelDefines.byProperties (RawPropertySetDefinition.propertySet
      (RawPropertySet.mk ("P")
        [RawProperty.complexProperty ("C")
          [RawProperty.singleValue (SingleValueData.mk ("a") (some (IfcValue.int 1)))]])),
     RawRelDefines.byProperties (RawPropertySetDefinition.elementQuantity
      (IfcElementQuantity.mk ("Q") [IfcQuantity.area ("ar") (some (IfcValue.int 2))]))]

/-- Witness for C2 at a concrete conforming element. -/
theorem c2_extractors_never_raise_witness :
    RawElement.conformsB c2e = true
    ∧ get_all_pset_data_raw c2e = Except.ok (get_all_pset_data c2e.toTyped)
    ∧ get_all_quantity_data_raw c2e = Except.ok (get_all_quantity_data c2e.toTyped)
    ∧ get_quantity_single_value_raw (IfcElementQuantity.mk ("Q")
        [IfcQuantity.area ("ar") (some (IfcValue.int 2))]) =
      Except.ok (get_quantity_single_value (IfcElementQuantity.mk ("Q")
        [IfcQuantity.area ("ar") (some (IfcValue.int 2))])) := by
  have h := c2_extractors_never_raise.2.2 c2e (by decide)
  exact ⟨by decide, h.1, h.2,
    c2_extractors_never_raise.2.1
      (IfcElementQuantity.mk ("Q") [IfcQuantity.area ("ar") (some (IfcValue.int 2))])⟩

/-- Claim C3: the type flattener returns an empty map, printing nothing,
when the Element Type has no nested property sets (None or an empty
collection); and when reading the nested property sets' names faults (the
type's own Name is None, so the key concatenation raises a TypeError at
the first nested set with a present name), it catches the fault, prints
one line naming the type's global identifier, and still returns an empty
map instead of propagating. -/
theorem c3_type_flattener_fault_policy (x : IfcElementType) :
    ((x.hasPropertySets = none ∨ x.hasPropertySets = some []) →
      get_type_single_value x = [] ∧ get_type_single_value_log x = [])
    ∧ (typeFaultTriggered x = true →
      get_type_single_value x = []
      ∧ get_type_single_value_log x = [typeExcMsg ++ x.globalId]) := by
  obtain ⟨nm, gid, hps⟩ := x
  constructor
  · rintro (h | h) <;> rw [show hps = _ from h] <;> exact ⟨rfl, rfl⟩
  · intro hf
    unfold typeFaultTriggered at hf
    rw [Bool.and_eq_true] at hf
    have hnm : nm = none := Option.isNone_iff_eq_none.mp hf.1
    subst hnm
    cases hps with
    | none => simp at hf
    | some l =>
      have hany : l.any (fun z => z.name.isSome) = true := hf.2
      cases l with
      | nil => simp at hany
      | cons y ys =>
        have hall : ((y :: ys).all (fun z => z.name.isNone)) = false := by
          cases hba : ((y :: ys).all (fun z => z.name.isNone)) with
          | false => rfl
          | true =>
            exfalso
            rw [List.all_eq_true] at hba
            rw [List.any_eq_true] at hany
            obtain ⟨z, hz, hzz⟩ := hany
            have hzn := hba z hz
            rw [Option.isNone_iff_eq_none] at hzn
            rw [hzn] at hzz
            simp at hzz
        constructor
        · simp [get_type_single_value, get_type_single_value_run, hall]
        · simp [get_type_single_value_log, get_type_single_value_run, hall]

/-- An element type triggering the type flattener's fault: its Name is
None while a nested set's name is present. -/
def c3fault : IfcElementType :=
  IfcElementType.mk none ("GID1") (some [TypeNestedSet.mk (some ("Pset_A"))])

/-- An element type with no nested property sets. -/
def c3empty : IfcElementType :=
  IfcElementType.mk (some ("T")) ("GID2") none

/-- Witness for C3 at a faulting type and at a type with no nested sets. -/
theorem c3_type_flattener_fault_policy_witness :
    typeFaultTriggered c3fault = true
    ∧ get_type_single_value c3fault = []
    ∧ get_type_single_value_log c3fault = [typeExcMsg ++ ("GID1")]
    ∧ get_type_single_value c3empty = []
    ∧ get_type_single_value_log c3empty = [] := by
  have h1 := (c3_type_flattener_fault_policy c3fault).2 (by decide)
  have h2 := (c3_type_flattener_fault_policy c3empty).1 (Or.inl (by decide))
  exact ⟨by decide, h1.1, h1.2, h2.1, h2.2⟩

/-- Claim C4: for every Element Type with a present Name and a
HasPropertySets collection, the flattened dict is determined by the LAST
nested set with a present name: every nested set with a present name
writes the same single key "TypeDefinition_" + the type's name, so the
dict is empty when no nested name is present and otherwise holds exactly
that one key mapped to the last present nested-set name; in particular the
specification's example "WallType1" with nested sets "Pset_A" then
"Pset_B" yields exactly the one entry "TypeDefinition_WallType1" mapped to
"Pset_B". -/
theorem c4_type_flattener_last_wins (nm gid : String) (l : List TypeNestedSet) :
    (get_type_single_value (IfcElementType.mk (some nm) gid (some l)) =
      match lastNamed l with
      | none => []
      | some yn => [(AttrKey.typeKey (typeDefTag ++ nm), some (IfcValue.str yn))])
    ∧ get_type_single_value (IfcElementType.mk (some ("WallType1")) gid
        (some [TypeNestedSet.mk (some ("Pset_A")), TypeNestedSet.mk (some ("Pset_B"))])) =
      [(AttrKey.typeKey ("TypeDefinition_WallType1"), some (IfcValue.str ("Pset_B")))] := by
  constructor
  · cases l with
    | nil => rfl
    | cons y ys =>
      show (y :: ys).foldl (typeSetLoop nm) [] = _
      rw [typeFold]
      cases lastNamed (y :: ys) <;> rfl
  · rfl

/-- Claim C5: for every element, the convenience extractor
`get_all_instance_data` agrees key-wise with updating the flattened
property-set map first with the quantity map and then with the type map:
on every key the result is the type category's value when present, else the
quantity category's, else the property category's -- properties, then
quantities, then type, later categories overwriting earlier ones. -/
theorem c5_instance_data_merge (e : IfcElement) (k : AttrKey) :
    dictGet (get_all_instance_data e) k =
      dictGet (pyUpdate (pyUpdate (get_all_pset_data e) (get_all_quantity_data e))
        (get_all_type_data e)) k := by
  have h1 : dictGet (get_all_instance_data e) k =
      orE (dictGet (get_all_type_data e) k)
        (orE (dictGet (get_all_quantity_data e) k) (dictGet (get_all_pset_data e) k)) := by
    rw [get_all_instance_data]
    rw [foldMerge get_type_single_value]
    rw [foldMerge get_quantity_single_value]
    rfl
  have h2 : dictGet (pyUpdate (pyUpdate (get_all_pset_data e) (get_all_quantity_data e))
        (get_all_type_data e)) k =
      orE (lastOcc (get_all_type_data e) k)
        (orE (lastOcc (get_all_quantity_data e) k) (dictGet (get_all_pset_data e) k)) := by
    rw [dictGet_pyUpdate, dictGet_pyUpdate]
  have hT : lastOcc (get_all_type_data e) k = dictGet (get_all_type_data e) k :=
    lastOcc_eq_dictGet_of_nodup _ k
      (nodupKeys_foldMerge get_type_single_value (get_related_type_definition e) []
        List.nodup_nil)
  have hQ : lastOcc (get_all_quantity_data e) k = dictGet (get_all_quantity_data e) k :=
    lastOcc_eq_dictGet_of_nodup _ k
      (nodupKeys_foldMerge get_quantity_single_value (get_related_quantities e) []
        List.nodup_nil)
  rw [h1, h2, hT, hQ]

/-- Claim C6: the quantity flattener dispatches on each record's variant
tag: under uniqueness of the quantity set's record names, the flat dict at
key (set name, record name) holds exactly the record's own matching scalar
attribute (AreaValue for an area record, LengthValue for length, VolumeValue
for volume, CountValue for count, WeightValue for weight -- the attribute
carried by the record's constructor), while a record matching none of the
five known kinds contributes no key (`quantScalar` is `none` for it, and
the lookup misses). -/
theorem c6_quantity_dispatch (x : IfcElementQuantity)
    (hnd : (x.quantities.map IfcQuantity.qname).Nodup) :
    ∀ y ∈ x.quantities,
      dictGet (get_quantity_single_value x) (AttrKey.pair x.name y.qname) = y.quantScalar :=
  fun y hy => gqsv_lookup x y hnd hy

/-- The specification's quantity example: an area record "NetArea" with
value 12.5, together with a count record and a record of unknown kind. -/
def c6x : IfcElementQuantity :=
  IfcElementQuantity.mk ("Qto")
    [IfcQuantity.area ("NetArea") (some (IfcValue.real (12.5))),
     IfcQuantity.count ("Units") (some (IfcValue.int 4)),
     IfcQuantity.otherQuantity ("Mystery")]

/-- Witness for C6 at the specification's example. -/
theorem c6_quantity_dispatch_witness :
    (c6x.quantities.map IfcQuantity.qname).Nodup
    ∧ dictGet (get_quantity_single_value c6x) (AttrKey.pair ("Qto") ("NetArea")) =
        some (some (IfcValue.real (12.5)))
    ∧ dictGet (get_quantity_single_value c6x) (AttrKey.pair ("Qto") ("Units")) =
        some (some (IfcValue.int 4))
    ∧ dictGet (get_quantity_single_value c6x) (AttrKey.pair ("Qto") ("Mystery")) = none := by
  have h1 := c6_quantity_dispatch c6x (by decide)
    (IfcQuantity.area ("NetArea") (some (IfcValue.real (12.5)))) (by simp [c6x])
  have h2 := c6_quantity_dispatch c6x (by decide)
    (IfcQuantity.count ("Units") (some (IfcValue.int 4))) (by simp [c6x])
  have h3 := c6_quantity_dispatch c6x (by decide)
    (IfcQuantity.otherQuantity ("Mystery")) (by simp [c6x])
  exact ⟨by decide, h1, h2, h3⟩

/-- Claim C7: for every Property Set with unique record names, a Single
Value record surfaces under key (set name, record name) exactly when its
wrapped value is present, mapped to that value (`Option.map some` sends a
present value to a present entry and `none` to a missed lookup, i.e. a
null-valued record contributes no key). -/
theorem c7_single_value_presence (x : IfcPropertySet)
    (hnd : (allPropNames x.hasProperties).Nodup) :
    ∀ sv : SingleValueData, IfcProperty.singleValue sv ∈ x.hasProperties →
      dictGet (get_property_single_value x) (AttrKey.pair x.name sv.name) =
        sv.nominalValue.map some :=
  fun sv hmem => gpsv_lookup_sv x sv hnd hmem

/-- The specification's property example: "Pset_Foo" holding "Bar" with
value 5 and "Baz" with a null wrapped value. -/
def c7x : IfcPropertySet :=
  IfcPropertySet.mk ("Pset_Foo")
    [IfcProperty.singleValue (SingleValueData.mk ("Bar") (some (IfcValue.int 5))),
     IfcProperty.singleValue (SingleValueData.mk ("Baz") none)]

/-- Witness for C7 at the specification's example. -/
theorem c7_single_value_presence_witness :
    (allPropNames c7x.hasProperties).Nodup
    ∧ dictGet (get_property_single_value c7x) (AttrKey.pair ("Pset_Foo") ("Bar")) =
        some (some (IfcValue.int 5))
    ∧ dictGet (get_property_single_value c7x) (AttrKey.pair ("Pset_Foo") ("Baz")) = none := by
  have h1 := c7_single_value_presence c7x (by decide)
    (SingleValueData.mk ("Bar") (some (IfcValue.int 5))) (by decide)
  have h2 := c7_single_value_presence c7x (by decide)
    (SingleValueData.mk ("Baz") none) (by decide)
  exact ⟨by decide, h1, h2⟩

/-- Claim C8: `get_related_property_sets` returns exactly the Property
Definitions reached through defines-by-properties relationships whose
target is tagged a Property Set, and `get_related_quantities` exactly
those tagged a Quantity Set: each equals the kind-filtered projection of
the unfiltered `get_related_properties`; and both preserve the element's
own relationship-collection order, their images being sublists of the
unfiltered sequence. -/
theorem c8_relation_filters (e : IfcElement) :
    get_related_property_sets e = (get_related_properties e).filterMap pickPropertySet
    ∧ get_related_quantities e = (get_related_properties e).filterMap pickElementQuantity
    ∧ List.Sublist ((get_related_property_sets e).map IfcPropertySetDefinition.propertySet)
        (get_related_properties e)
    ∧ List.Sublist ((get_related_quantities e).map IfcPropertySetDefinition.elementQuantity)
        (get_related_properties e) := by
  refine ⟨grps_eq e, grq_eq e, ?_, ?_⟩
  · rw [grps_eq e]
    exact sublist_filterMap_pickPropertySet _
  · rw [grq_eq e]
    exact sublist_filterMap_pickElementQuantity _

/-- Claim C9: an element whose definition-relationship collection is empty
gets the empty map from each of the four category extractors. -/
theorem c9_empty_relationships (e : IfcElement) (h : e.isDefinedBy = []) :
    get_all_pset_data e = [] ∧ get_all_quantity_data e = []
    ∧ get_all_type_data e = [] ∧ get_all_instance_data e = [] := by
  obtain ⟨l⟩ := e
  cases h
  exact ⟨rfl, rfl, rfl, rfl⟩

/-- Witness for C9 at the element with no relationships. -/
theorem c9_empty_relationships_witness :
    (IfcElement.mk []).isDefinedBy = []
    ∧ get_all_instance_data (IfcElement.mk []) = []
    ∧ get_all_pset_data (IfcElement.mk []) = [] := by
  have h := c9_empty_relationships (IfcElement.mk []) rfl
  exact ⟨rfl, h.2.2.2, h.1⟩

/-- Claim C10: a quantity record of a known kind whose scalar attribute is
null still contributes its key, mapped to null, to the quantity
flattener's output (the emission carries the attribute with no presence
check); by contrast a Single Value property record with a null wrapped
value contributes no key at all. -/
theorem c10_null_quantity_value_emitted :
    (∀ (x : IfcElementQuantity), (x.quantities.map IfcQuantity.qname).Nodup →
      ∀ y ∈ x.quantities, y.quantScalar = some none →
        dictGet (get_quantity_single_value x) (AttrKey.pair x.name y.qname) = some none)
    ∧ (∀ (p : IfcPropertySet), (allPropNames p.hasProperties).Nodup →
      ∀ sv : SingleValueData, IfcProperty.singleValue sv ∈ p.hasProperties →
        sv.nominalValue = none →
        dictGet (get_property_single_value p) (AttrKey.pair p.name sv.name) = none) := by
  constructor
  · intro x hnd y hy hnull
    rw [gqsv_lookup x y hnd hy, hnull]
  · intro p hnd sv hmem hnull
    rw [gpsv_lookup_sv p sv hnd hmem, hnull]
    rfl

/-- A quantity set holding one area record with a null AreaValue. -/
def c10x : IfcElementQuantity :=
  IfcElementQuantity.mk ("Qset") [IfcQuantity.area ("GrossArea") none]

/-- A property set holding one single value with a null NominalValue. -/
def c10p : IfcPropertySet :=
  IfcPropertySet.mk ("Pset") [IfcProperty.singleValue (SingleValueData.mk ("Empty") none)]

/-- Witness for C10: the null-valued quantity keeps its key (mapped to
None) while the null-valued property has none. -/
theorem c10_null_quantity_value_emitted_witness :
    dictGet (get_quantity_single_value c10x) (AttrKey.pair ("Qset") ("GrossArea")) = some none
    ∧ dictGet (get_property_single_value c10p) (AttrKey.pair ("Pset") ("Empty")) = none := by
  have h1 := c10_null_quantity_value_emitted.1 c10x (by decide)
    (IfcQuantity.area ("GrossArea") none) (by decide) (by decide)
  have h2 := c10_null_quantity_value_emitted.2 c10p (by decide)
    (SingleValueData.mk ("Empty") none) (by decide) (by decide)
  exact ⟨h1, h2⟩
